import Mathlib

/-!
Verification of the core logic of the ms-py-indesign repository
(src/gen.py and src/custom_edition.py).

Shallow embedding conventions:

* Python strings are embedded as List Char. The embedding covers the
  ASCII fragment: the exotic Unicode whitespace and digit characters that
  some Python string predicates additionally accept are not modelled; all
  strings produced by the program and all realistic inputs are ASCII.
* Python datetime values (used only as year/month/day dates here) are
  embedded as a year/month/day record over Nat, with well-formedness
  expressed by a separate predicate.
* Fallible Python code, meaning statements that can raise, is embedded
  with Except; the exception classes the translated code can actually
  raise are the constructors of PyErr.
* The pages.json store mutated by custom_edition.main is embedded as an
  explicit association list threaded through the function, together with
  a Boolean that records whether the file write was performed.
-/

namespace MsPyInDesign

/-- Decimal digit character table, used to embed the decimal rendering
performed by Python str formatting. Arguments outside 0 to 9 never occur
at call sites; the catch-all returns a placeholder. -/
def digitChar : Nat → Char
  | 0 => '0'
  | 1 => '1'
  | 2 => '2'
  | 3 => '3'
  | 4 => '4'
  | 5 => '5'
  | 6 => '6'
  | 7 => '7'
  | 8 => '8'
  | 9 => '9'
  | _ => '*'

/-- Numeric value of an ASCII digit character. -/
def dval (c : Char) : Nat := c.toNat - 48

/-- Fuel-driven helper for the decimal rendering of a Nat, most
significant digit first. The fuel argument only serves to make the
recursion structural; any fuel above the number being rendered gives the
same result. -/
def repNatAux : Nat → Nat → List Char
  | 0, _ => []
  | f + 1, n =>
    if n < 10 then [digitChar n]
    else repNatAux f (n / 10) ++ [digitChar (n % 10)]

/-- Decimal rendering of a Nat, as produced by Python str conversion of a
nonnegative int: no sign, no leading zeros (and a single 0 for zero). -/
def rep (n : Nat) : List Char := repNatAux (n + 1) n

/-- Embedding of strftime field rendering with a 02d width, as used by
the percent-d and percent-y directives: zero-padded to two characters. -/
def pad2 (n : Nat) : List Char := if n < 10 then '0' :: rep n else rep n

theorem repNatAux_congr :
    ∀ f g n : Nat, n < f → n < g → repNatAux f n = repNatAux g n := by
  intro f
  induction f with
  | zero => intro g n hf _; omega
  | succ f ih =>
    intro g n hf hg
    match g, hg with
    | g + 1, _ =>
      simp only [repNatAux]
      by_cases h10 : n < 10
      · simp [h10]
      · have hdiv : n / 10 < n := Nat.div_lt_self (by omega) (by omega)
        simp only [h10, if_false]
        rw [ih g (n / 10) (by omega) (by omega)]

theorem rep_of_lt_ten {n : Nat} (h : n < 10) : rep n = [digitChar n] := by
  simp [rep, repNatAux, h]

theorem rep_of_ge_ten {n : Nat} (h : 10 ≤ n) :
    rep n = rep (n / 10) ++ [digitChar (n % 10)] := by
  have hdiv : n / 10 < n := Nat.div_lt_self (by omega) (by omega)
  have hn : ¬ n < 10 := by omega
  show repNatAux (n + 1) n = repNatAux (n / 10 + 1) (n / 10) ++ [digitChar (n % 10)]
  rw [show repNatAux (n + 1) n
      = if n < 10 then [digitChar n]
        else repNatAux n (n / 10) ++ [digitChar (n % 10)] from rfl]
  rw [if_neg hn, repNatAux_congr n (n / 10 + 1) (n / 10) (by omega) (by omega)]

theorem rep_ne_nil (n : Nat) : rep n ≠ [] := by
  induction n using Nat.strong_induction_on with
  | _ n ih =>
    by_cases h : n < 10
    · rw [rep_of_lt_ten h]; simp
    · rw [rep_of_ge_ten (by omega)]; simp

theorem digitChar_isDigit {n : Nat} (h : n < 10) :
    (digitChar n).isDigit = true := by
  interval_cases n <;> decide

theorem digitChar_ne_zero {n : Nat} (h1 : 1 ≤ n) (h9 : n ≤ 9) :
    digitChar n ≠ '0' := by
  interval_cases n <;> decide

theorem dval_digitChar {n : Nat} (h : n < 10) : dval (digitChar n) = n := by
  interval_cases n <;> decide

theorem mem_rep_isDigit (n : Nat) : ∀ c ∈ rep n, c.isDigit = true := by
  induction n using Nat.strong_induction_on with
  | _ n ih =>
    intro c hc
    by_cases h : n < 10
    · rw [rep_of_lt_ten h] at hc
      simp at hc
      exact hc ▸ digitChar_isDigit h
    · rw [rep_of_ge_ten (by omega)] at hc
      have hdiv : n / 10 < n := Nat.div_lt_self (by omega) (by omega)
      rcases List.mem_append.mp hc with h1 | h2
      · exact ih (n / 10) hdiv c h1
      · simp at h2
        exact h2 ▸ digitChar_isDigit (Nat.mod_lt _ (by omega))

theorem rep_head_ne_zero {n : Nat} (h : 1 ≤ n) :
    (rep n).head? ≠ some '0' := by
  induction n using Nat.strong_induction_on with
  | _ n ih =>
    by_cases h10 : n < 10
    · rw [rep_of_lt_ten h10]
      simp
      exact digitChar_ne_zero h (by omega)
    · rw [rep_of_ge_ten (by omega)]
      have hdiv : n / 10 < n := Nat.div_lt_self (by omega) (by omega)
      have hne := rep_ne_nil (n / 10)
      rcases List.exists_cons_of_ne_nil hne with ⟨a, t, ht⟩
      rw [ht]
      have := ih (n / 10) hdiv (by omega)
      rw [ht] at this
      simpa using this

theorem mem_rep_ne_space (n : Nat) : ∀ c ∈ rep n, c ≠ ' ' := by
  intro c hc
  have := mem_rep_isDigit n c hc
  intro he
  rw [he] at this
  exact absurd this (by decide)

theorem rep_two_digits {n : Nat} (h10 : 10 ≤ n) (h99 : n ≤ 99) :
    rep n = [digitChar (n / 10), digitChar (n % 10)] := by
  rw [rep_of_ge_ten h10, rep_of_lt_ten (by omega)]
  rfl

/-- Python whitespace test, covering the ASCII whitespace characters
recognised by str.strip, str.split and int parsing: space, tab, newline,
carriage return, vertical tab and form feed. -/
def pyWS (c : Char) : Bool :=
  c = ' ' || c = '\t' || c = '\n' || c = '\r' ||
  c = Char.ofNat 11 || c = Char.ofNat 12

/-- Embedding of the Python str.lstrip method with no argument. -/
def pyLstrip (l : List Char) : List Char := l.dropWhile pyWS

/-- Embedding of the Python str.rstrip method with no argument, as called
on every kept specification line in custom_edition.main. -/
def pyRstrip (l : List Char) : List Char := (l.reverse.dropWhile pyWS).reverse

/-- Embedding of the Python str.strip method with no argument, as used by
the line filter l.strip() in custom_edition.main. -/
def pyStrip (l : List Char) : List Char := pyLstrip (pyRstrip l)

/-- Embedding of the Python split on a literal newline separator, as in
custom_spec.split applied in custom_edition.main: the empty string yields
one empty piece, and every separator starts a new piece. -/
def splitNL : List Char → List (List Char)
  | [] => [[]]
  | c :: rest =>
    match splitNL rest with
    | [] => [[c]]
    | h :: t => if c = '\n' then [] :: h :: t else (c :: h) :: t

/-- Embedding of the Python call line.split with maxsplit one and no
separator: leading whitespace is skipped, the first whitespace-free token
is taken, the following whitespace run is consumed, and the remainder, if
nonempty, is the second piece. A blank or empty line gives no pieces. -/
def pySplit1 (l : List Char) : List (List Char) :=
  let l1 := l.dropWhile pyWS
  if l1 = [] then []
  else
    let tok := l1.takeWhile (fun c => ! pyWS c)
    let rest := (l1.dropWhile (fun c => ! pyWS c)).dropWhile pyWS
    if rest = [] then [tok] else [tok, rest]

/-- Digit-run parser for the Python int constructor: consumes decimal
digits, allowing a single underscore between two digits, accumulating the
value; fails on anything else, on a trailing underscore, and on doubled
underscores. -/
def parseDigitRun : List Char → Nat → Option Nat
  | [], acc => some acc
  | c :: rest, acc =>
    if c.isDigit then parseDigitRun rest (acc * 10 + dval c)
    else if c = '_' then
      match rest with
      | [] => none
      | c2 :: rest2 =>
        if c2.isDigit then parseDigitRun rest2 (acc * 10 + dval c2) else none
    else none

/-- Unsigned decimal parser for the Python int constructor: at least one
digit, then a digit run with optional single underscores. -/
def parseUDigits : List Char → Option Nat
  | [] => none
  | c :: rest => if c.isDigit then parseDigitRun rest (dval c) else none

/-- Sign-and-digits part of the Python int constructor, applied after
whitespace stripping: an optional single plus or minus sign, then an
underscore-allowing decimal digit run; anything else fails. -/
def pyIntCore : List Char → Option Int
  | [] => none
  | c :: rest =>
    if c = '+' then (parseUDigits rest).map (fun n => (n : Int))
    else if c = '-' then (parseUDigits rest).map (fun n => -(n : Int))
    else (parseUDigits (c :: rest)).map (fun n => (n : Int))

/-- Embedding of the Python int constructor applied to a string, as in
int(pn_str) in custom_edition.main: surrounding whitespace is stripped,
an optional single plus or minus sign is read, then an underscore-allowing
decimal digit run; anything else fails, which the code catches as
ValueError. ASCII fragment: exotic Unicode digits are not modelled. -/
def pyInt (l : List Char) : Option Int := pyIntCore (pyStrip l)

/-- Decimal rendering of a Python int by the str conversion: a minus sign
for negative values, then the digits without leading zeros. -/
def strInt (n : Int) : List Char :=
  if n < 0 then '-' :: rep n.natAbs else rep n.toNat

theorem parseDigitRun_digits :
    ∀ (l : List Char) (acc : Nat), (∀ c ∈ l, c.isDigit = true) →
      parseDigitRun l acc
        = some (l.foldl (fun a c => a * 10 + dval c) acc) := by
  intro l
  induction l with
  | nil => intro acc _; rfl
  | cons c rest ih =>
    intro acc h
    have hc : c.isDigit = true := h c (by simp)
    rw [parseDigitRun.eq_def]
    simp only [hc, if_true, List.foldl_cons]
    exact ih _ (fun x hx => h x (by simp [hx]))

theorem foldl_rep (n acc : Nat) :
    (rep n).foldl (fun a c => a * 10 + dval c) acc
      = acc * 10 ^ (rep n).length + n := by
  induction n using Nat.strong_induction_on generalizing acc with
  | _ n ih =>
    by_cases h : n < 10
    · rw [rep_of_lt_ten h]
      simp [dval_digitChar h]
    · have hdiv : n / 10 < n := Nat.div_lt_self (by omega) (by omega)
      rw [rep_of_ge_ten (by omega)]
      rw [List.foldl_append, ih (n / 10) hdiv acc]
      simp only [List.foldl_cons, List.foldl_nil, List.length_append,
        List.length_cons, List.length_nil,
        dval_digitChar (Nat.mod_lt n (by omega : 0 < 10))]
      calc (acc * 10 ^ (rep (n / 10)).length + n / 10) * 10 + n % 10
          = acc * (10 ^ (rep (n / 10)).length * 10) + (n / 10 * 10 + n % 10) := by
            ring
        _ = acc * 10 ^ ((rep (n / 10)).length + (0 + 1)) + n := by
            rw [show (rep (n / 10)).length + (0 + 1)
                = (rep (n / 10)).length + 1 from by omega, ← pow_succ]
            congr 1
            omega

theorem parseUDigits_rep (n : Nat) : parseUDigits (rep n) = some n := by
  rcases List.exists_cons_of_ne_nil (rep_ne_nil n) with ⟨c, rest, hrep⟩
  have hdigs := mem_rep_isDigit n
  have hc : c.isDigit = true := hdigs c (by rw [hrep]; simp)
  rw [hrep]
  simp only [parseUDigits, hc, if_true]
  rw [parseDigitRun_digits rest (dval c)
      (fun x hx => hdigs x (by rw [hrep]; simp [hx]))]
  have hfold : (rep n).foldl (fun a c => a * 10 + dval c) 0
      = 0 * 10 ^ (rep n).length + n := foldl_rep n 0
  rw [hrep] at hfold
  simp only [List.foldl_cons, Nat.zero_mul, Nat.zero_add] at hfold
  rw [hfold]

theorem isDigit_not_pyWS {c : Char} (h : c.isDigit = true) :
    pyWS c = false := by
  by_contra hws
  have hws' : pyWS c = true := by revert hws; cases pyWS c <;> simp
  unfold pyWS at hws'
  simp only [Bool.or_eq_true, decide_eq_true_eq] at hws'
  rcases hws' with ((((h1 | h1) | h1) | h1) | h1) | h1 <;>
    (subst h1; simp [Char.isDigit] at h)

theorem dropWhile_eq_self_of_not {p : Char → Bool} {l : List Char}
    (h : ∀ c ∈ l, p c = false) : l.dropWhile p = l := by
  cases l with
  | nil => rfl
  | cons c rest => simp [List.dropWhile, h c (by simp)]

theorem pyStrip_no_ws {l : List Char} (h : ∀ c ∈ l, pyWS c = false) :
    pyStrip l = l := by
  unfold pyStrip pyLstrip pyRstrip
  rw [dropWhile_eq_self_of_not (fun c hc => h c (List.mem_reverse.mp hc))]
  rw [List.reverse_reverse, dropWhile_eq_self_of_not h]

theorem isDigit_ne_plus {c : Char} (h : c.isDigit = true) : c ≠ '+' := by
  intro he; rw [he] at h; simp [Char.isDigit] at h

theorem isDigit_ne_minus {c : Char} (h : c.isDigit = true) : c ≠ '-' := by
  intro he; rw [he] at h; simp [Char.isDigit] at h

theorem pyInt_strInt (n : Int) : pyInt (strInt n) = some n := by
  by_cases hn : n < 0
  · unfold strInt
    rw [if_pos hn]
    unfold pyInt
    have hstrip : pyStrip ('-' :: rep n.natAbs) = '-' :: rep n.natAbs := by
      apply pyStrip_no_ws
      intro c hc
      rcases List.mem_cons.mp hc with h1 | h1
      · subst h1; decide
      · exact isDigit_not_pyWS (mem_rep_isDigit _ c h1)
    rw [hstrip]
    rw [show pyIntCore ('-' :: rep n.natAbs)
        = (parseUDigits (rep n.natAbs)).map (fun k => -(k : Int)) from by
      simp [pyIntCore]]
    rw [parseUDigits_rep]
    show some (-((n.natAbs : Nat) : Int)) = some n
    congr 1
    omega
  · unfold strInt
    rw [if_neg hn]
    unfold pyInt
    have hstrip : pyStrip (rep n.toNat) = rep n.toNat :=
      pyStrip_no_ws (fun c hc => isDigit_not_pyWS (mem_rep_isDigit _ c hc))
    rw [hstrip]
    rcases List.exists_cons_of_ne_nil (rep_ne_nil n.toNat) with ⟨c, rest, hrep⟩
    have hc : c.isDigit = true := mem_rep_isDigit n.toNat c (by rw [hrep]; simp)
    rw [hrep]
    rw [show pyIntCore (c :: rest)
        = if c = '+' then (parseUDigits rest).map (fun k => (k : Int))
          else if c = '-' then (parseUDigits rest).map (fun k => -(k : Int))
          else (parseUDigits (c :: rest)).map (fun k => (k : Int)) from rfl]
    rw [if_neg (isDigit_ne_plus hc), if_neg (isDigit_ne_minus hc)]
    rw [← hrep, parseUDigits_rep]
    show some ((n.toNat : Nat) : Int) = some n
    congr 1
    omega

/-- Embedding of a Python datetime value as used by gen.py: only the
year, month and day components are ever consulted. -/
structure PyDate where
  year : Nat
  month : Nat
  day : Nat
deriving DecidableEq, Repr

/-- Gregorian leap year rule, as implemented by the Python datetime
module used by gen.py. -/
def isLeap (y : Nat) : Bool := y % 4 = 0 && (y % 100 ≠ 0 || y % 400 = 0)

/-- Length of a month in the Gregorian calendar; months outside 1 to 12
never occur and get a zero default. -/
def daysInMonth (m y : Nat) : Nat :=
  match m with
  | 1 => 31
  | 2 => if isLeap y then 29 else 28
  | 3 => 31
  | 4 => 30
  | 5 => 31
  | 6 => 30
  | 7 => 31
  | 8 => 31
  | 9 => 30
  | 10 => 31
  | 11 => 30
  | 12 => 31
  | _ => 0

/-- Well-formedness of a date, matching the constructible range of the
Python datetime type consumed by gen.py. -/
def ValidDate (d : PyDate) : Prop :=
  1 ≤ d.year ∧ d.year ≤ 9999 ∧ 1 ≤ d.month ∧ d.month ≤ 12 ∧
  1 ≤ d.day ∧ d.day ≤ daysInMonth d.month d.year

instance (d : PyDate) : Decidable (ValidDate d) := by
  unfold ValidDate; infer_instance

/-- Embedding of edition_date + timedelta(1) in gen.py: the Gregorian
successor day. The OverflowError that datetime raises past year 9999 is
not modelled; the only affected input, the last representable day, is not
a Saturday and is excluded by the weekday hypotheses of the theorems. -/
def addDay (d : PyDate) : PyDate :=
  if d.day < daysInMonth d.month d.year then ⟨d.year, d.month, d.day + 1⟩
  else if d.month < 12 then ⟨d.year, d.month + 1, 1⟩
  else ⟨d.year + 1, 1, 1⟩

/-- Days from the start of the year to the start of the given month. -/
def daysBeforeMonth (m y : Nat) : Nat :=
  let base :=
    match m with
    | 1 => 0
    | 2 => 31
    | 3 => 59
    | 4 => 90
    | 5 => 120
    | 6 => 151
    | 7 => 181
    | 8 => 212
    | 9 => 243
    | 10 => 273
    | 11 => 304
    | 12 => 334
    | _ => 0
  if 3 ≤ m ∧ isLeap y then base + 1 else base

/-- Day count in the proleptic Gregorian calendar with day one equal to
the first of January of year one, matching the ordinal used by the Python
datetime module. -/
def rataDie (d : PyDate) : Nat :=
  365 * (d.year - 1) + (d.year - 1) / 4 + (d.year - 1) / 400
    + daysBeforeMonth d.month d.year + d.day - (d.year - 1) / 100

/-- Embedding of the datetime isoweekday method: Monday is one through
Sunday is seven. Day one of the calendar is a Monday. -/
def isoweekday (d : PyDate) : Nat := (rataDie d - 1) % 7 + 1

/-- Full English month names as produced by the strftime percent-B
directive in the C locale used by gen.py. -/
def monthName : Nat → List Char
  | 1 => "January".data
  | 2 => "February".data
  | 3 => "March".data
  | 4 => "April".data
  | 5 => "May".data
  | 6 => "June".data
  | 7 => "July".data
  | 8 => "August".data
  | 9 => "September".data
  | 10 => "October".data
  | 11 => "November".data
  | 12 => "December".data
  | _ => []

/-- Full English weekday names as produced by the strftime percent-A
directive, indexed by isoweekday. -/
def weekdayName : Nat → List Char
  | 1 => "Monday".data
  | 2 => "Tuesday".data
  | 3 => "Wednesday".data
  | 4 => "Thursday".data
  | 5 => "Friday".data
  | 6 => "Saturday".data
  | 7 => "Sunday".data
  | _ => []

/-- Embedding of remove_zero_padded_dates in src/gen.py: the re.sub call
whose pattern is a space, a zero and a captured decimal digit, replaced
by the space and the digit. The scan is left to right, non-overlapping,
resuming after the end of each match, exactly as re.sub does. ASCII
fragment: the regex digit class is modelled by Char.isDigit. -/
def removeZeroPaddedDates : List Char → List Char
  | [] => []
  | [a] => [a]
  | [a, b] => [a, b]
  | a :: b :: c :: rest =>
    if a = ' ' ∧ b = '0' ∧ c.isDigit then
      ' ' :: c :: removeZeroPaddedDates rest
    else a :: removeZeroPaddedDates (b :: c :: rest)

/-- Whether the first three characters form a match of the zero-padding
pattern: used to reason about where the re.sub scan can fire. -/
def fire (a : Char) (l : List Char) : Bool :=
  a = ' ' && match l with
  | b :: c :: _ => b = '0' && c.isDigit
  | _ => false

/-- Whether a character list contains a match of the zero-padding pattern
anywhere: a space, then a zero, then a digit, at consecutive positions. -/
def hasPat : List Char → Bool
  | [] => false
  | [_] => false
  | [_, _] => false
  | a :: b :: c :: rest => (a = ' ' && b = '0' && c.isDigit) || hasPat (b :: c :: rest)

/-- Embedding of _format_page_date_for_weekend in src/gen.py. The
strftime directives are expanded: percent-B is the full month name,
percent-d the zero-padded two-digit day, percent-Y the unpadded decimal
year. The year-boundary branch returns its literal string directly; the
other two branches pass the formatted string through
remove_zero_padded_dates. -/
def formatPageDateForWeekend (editionDate : PyDate) : List Char :=
  let saturday := editionDate
  let sunday := addDay editionDate
  if saturday.year ≠ sunday.year then
    "Saturday/Sunday\nDecember 31-January 1 ".data ++ rep saturday.year
      ++ "-".data ++ rep sunday.year
  else if saturday.month ≠ sunday.month then
    removeZeroPaddedDates
      ("Saturday/Sunday\n".data ++ monthName saturday.month ++ " ".data
        ++ pad2 saturday.day ++ "-".data ++ monthName sunday.month ++ " ".data
        ++ pad2 sunday.day ++ " ".data ++ rep sunday.year)
  else
    removeZeroPaddedDates
      ("Saturday/Sunday\n".data ++ monthName saturday.month ++ " ".data
        ++ pad2 saturday.day ++ "-".data ++ pad2 sunday.day ++ " ".data
        ++ rep sunday.year)

/-- Embedding of format_page_date in src/gen.py: Saturdays take the joint
weekend form when sat_spans_weekend holds, every other date renders the
weekday name, then the month name, zero-stripped day and year. -/
def formatPageDate (editionDate : PyDate) (satSpansWeekend : Bool := true) :
    List Char :=
  if satSpansWeekend = true ∧ isoweekday editionDate = 6 then
    formatPageDateForWeekend editionDate
  else
    removeZeroPaddedDates
      (weekdayName (isoweekday editionDate) ++ "\n".data
        ++ monthName editionDate.month ++ " ".data ++ pad2 editionDate.day
        ++ " ".data ++ rep editionDate.year)

/-- Embedding of format_file_date in src/gen.py: strftime with the
directives d, m, y in sequence, i.e. two-digit zero-padded day, month and
year within century. -/
def formatFileDate (editionDate : PyDate) : List Char :=
  pad2 editionDate.day ++ pad2 editionDate.month
    ++ pad2 (editionDate.year % 100)

theorem hasPat_cons (a : Char) (l : List Char) :
    hasPat (a :: l) = (fire a l || hasPat l) := by
  match l with
  | [] => simp [hasPat, fire]
  | [b] => simp [hasPat, fire]
  | b :: c :: r => simp [hasPat, fire, Bool.and_assoc]

theorem rzp_cons {a : Char} {l : List Char} (h : fire a l = false) :
    removeZeroPaddedDates (a :: l) = a :: removeZeroPaddedDates l := by
  match l with
  | [] => rfl
  | [b] => rfl
  | b :: c :: r =>
    rw [removeZeroPaddedDates]
    rw [if_neg]
    intro ⟨h1, h2, h3⟩
    rw [fire, h1, h2, h3] at h
    simp at h

theorem rzp_of_hasPat_false :
    ∀ l : List Char, hasPat l = false → removeZeroPaddedDates l = l := by
  intro l
  induction l with
  | nil => intro _; rfl
  | cons a rest ih =>
    intro h
    rw [hasPat_cons] at h
    rcases Bool.or_eq_false_iff.mp h with ⟨hf, hp⟩
    rw [rzp_cons hf, ih hp]

theorem fire_eq_fire_take2 (a : Char) (A B : List Char) :
    fire a (A ++ B) = fire a (A ++ B.take 2) := by
  match A with
  | [] =>
    match B with
    | [] => rfl
    | [b] => rfl
    | b :: c :: r => simp [fire, List.take]
  | [x] =>
    match B with
    | [] => rfl
    | b :: r => simp [fire, List.take]
  | x :: y :: r => simp [fire]

theorem rzp_append :
    ∀ A B : List Char, hasPat (A ++ B.take 2) = false →
      removeZeroPaddedDates (A ++ B) = A ++ removeZeroPaddedDates B := by
  intro A
  induction A with
  | nil => intro B _; simp
  | cons a A' ih =>
    intro B h
    rw [List.cons_append, hasPat_cons] at h
    rcases Bool.or_eq_false_iff.mp h with ⟨hf, hp⟩
    rw [← fire_eq_fire_take2] at hf
    rw [List.cons_append, rzp_cons hf, ih B hp, List.cons_append]

theorem isDigit_ne_space {c : Char} (h : c.isDigit = true) : c ≠ ' ' := by
  intro he; rw [he] at h; simp [Char.isDigit] at h

theorem fire_of_not_space {a : Char} (h : a ≠ ' ') (l : List Char) :
    fire a l = false := by
  unfold fire
  simp [h]

theorem fire_space_not_zero {l : List Char} (hh : l.head? ≠ some '0') :
    fire ' ' l = false := by
  unfold fire
  match l, hh with
  | [], _ => rfl
  | [b], _ => rfl
  | b :: c :: r, hh =>
    have hb : b ≠ '0' := by simpa using hh
    simp [hb]

theorem hasPat_no_space {l : List Char}
    (h : ∀ c ∈ l, c ≠ ' ') : hasPat l = false := by
  induction l with
  | nil => rfl
  | cons a rest ih =>
    rw [hasPat_cons, Bool.or_eq_false_iff]
    exact ⟨fire_of_not_space (h a (by simp)) rest,
      ih (fun c hc => h c (by simp [hc]))⟩

theorem hasPat_space_digits {l : List Char}
    (hd : ∀ c ∈ l, c.isDigit = true) (hh : l.head? ≠ some '0') :
    hasPat (' ' :: l) = false := by
  rw [hasPat_cons, Bool.or_eq_false_iff]
  exact ⟨fire_space_not_zero hh,
    hasPat_no_space (fun c hc => isDigit_ne_space (hd c hc))⟩

theorem rzp_space_rep {y : Nat} (hy : 1 ≤ y) :
    removeZeroPaddedDates (' ' :: rep y) = ' ' :: rep y :=
  rzp_of_hasPat_false _
    (hasPat_space_digits (mem_rep_isDigit y) (rep_head_ne_zero hy))

example : isoweekday ⟨2018, 1, 23⟩ = 2 := by decide
example : isoweekday ⟨2018, 1, 27⟩ = 6 := by decide
example : isoweekday ⟨2016, 12, 31⟩ = 6 := by decide
example : isoweekday ⟨2018, 8, 4⟩ = 6 := by decide
example : isoweekday ⟨2018, 3, 31⟩ = 6 := by decide
example : isoweekday ⟨9999, 12, 31⟩ = 5 := by decide
example : formatPageDate ⟨2018, 1, 27⟩
    = "Saturday/Sunday\nJanuary 27-28 2018".data := by decide
example : formatPageDate ⟨2018, 3, 31⟩
    = "Saturday/Sunday\nMarch 31-April 1 2018".data := by decide
example : formatPageDate ⟨2016, 12, 31⟩
    = "Saturday/Sunday\nDecember 31-January 1 2016-2017".data := by decide
example : formatPageDate ⟨2018, 8, 4⟩
    = "Saturday/Sunday\nAugust 4-05 2018".data := by decide
example : formatPageDate ⟨2018, 1, 23⟩
    = "Tuesday\nJanuary 23 2018".data := by decide
example : formatFileDate ⟨2018, 3, 27⟩ = "270318".data := by decide

/-- Descriptor of one master page in masters.json: its slug and whether
it is a spread, the two fields consulted by the generator. -/
structure Master where
  slug : List Char
  spread : Bool
deriving DecidableEq, Repr

/-- The masters.json catalog, an association list from master page name
to descriptor, embedding the JSON object read by read_masters. -/
abbrev Catalog := List (List Char × Master)

/-- Key lookup in the catalog; none embeds absence of the key, i.e. the
Python membership test on the masters dict. -/
def catFind : Catalog → List Char → Option Master
  | [], _ => none
  | (k, v) :: rest, key => if k = key then some v else catFind rest key

/-- One entry of a page list as written by custom_edition.main into the
Specials section: the master page name and the page number. -/
structure PageDict where
  master : List Char
  page : Int
deriving DecidableEq, Repr

/-- The Specials section of the pages.json store, embedded as an
association list from edition title to page list. -/
abbrev Store := List (List Char × List PageDict)

/-- Embedding of the Python dict assignment on the Specials section in
custom_edition.main: the binding for the title is replaced in place when
present, appended otherwise, as dict assignment does. -/
def setStore (s : Store) (k : List Char) (v : List PageDict) : Store :=
  if s.any (fun p => p.1 = k) then
    s.map (fun p => if p.1 = k then (k, v) else p)
  else s ++ [(k, v)]

/-- The Python exception classes that the embedded code can raise. -/
inductive PyErr where
  | indexError
  | valueError
  | keyError
deriving DecidableEq, Repr

/-- Outcome of classifying one specification line against the catalog. -/
inductive LineRes where
  | accept (pageNumber : Int) (masterName : List Char)
  | reject (reason : List Char)
deriving DecidableEq, Repr

/-- Reason string used by custom_edition.main when the page-number token
fails to parse as an integer. -/
def notAnIntegerMsg : List Char :=
  "First item must be an integer page number".data

/-- Reason suffix used by custom_edition.main when the master name is
absent from masters.json; the full reason prepends the master name. -/
def unknownMasterSuffix : List Char := " is not in masters.json".data

/-- Validation of custom_edition.main on the two tokens of a line that
did unpack: a failing int parse rejects with the integer reason, an
unknown master name rejects with the masters.json reason, and anything
else is accepted with the parsed page number and the master name. -/
def classifyTokens (cat : Catalog) (pn mn : List Char) : LineRes :=
  match pyInt pn with
  | none => .reject notAnIntegerMsg
  | some n =>
    match catFind cat mn with
    | none => .reject (mn ++ unknownMasterSuffix)
    | some _ => .accept n mn

/-- Embedding of the loop body of custom_edition.main for one surviving
line: the line is split into at most two tokens; fewer than two tokens
makes the tuple unpacking raise ValueError; two tokens are validated by
classifyTokens. -/
def classify (cat : Catalog) (l : List Char) : Except PyErr LineRes :=
  match pySplit1 l with
  | [pn, mn] => .ok (classifyTokens cat pn mn)
  | _ => .error .valueError

/-- Sequential processing of the surviving non-title lines by
custom_edition.main, accumulating accepted triples of line, page number
and master name, and rejected pairs of line and reason, in input order;
an exception raised at a line aborts the remainder. -/
def processLines (cat : Catalog) : List (List Char) →
    Except PyErr
      (List (List Char × Int × List Char) × List (List Char × List Char))
  | [] => .ok ([], [])
  | l :: ls =>
    match classify cat l with
    | .error e => .error e
    | .ok r =>
      match processLines cat ls with
      | .error e => .error e
      | .ok (acc, rej) =>
        match r with
        | .accept n mn => .ok ((l, n, mn) :: acc, rej)
        | .reject reason => .ok (acc, (l, reason) :: rej)

/-- The literal startswith test on the hash character applied by
custom_edition.main to each raw line before any stripping. -/
def startsWithHash : List Char → Bool
  | '#' :: _ => true
  | _ => false

/-- Filter and normalization applied to the raw specification text by
custom_edition.main: split on newlines, drop lines whose first character
is the hash character, drop lines that are blank after stripping, and
strip trailing whitespace from the survivors. -/
def specLines (raw : List Char) : List (List Char) :=
  ((splitNL raw).filter
    (fun l => !startsWithHash l && !(pyStrip l).isEmpty)).map pyRstrip

/-- Observable outcome of a completed run of custom_edition.main: the
title, the accepted and rejected reports in input order, the resulting
Specials store, and whether the pages.json write was performed. -/
structure Outcome where
  title : List Char
  accepted : List (List Char × Int × List Char)
  rejected : List (List Char × List Char)
  store : Store
  wrote : Bool
deriving DecidableEq, Repr

/-- Body of custom_edition.main after title extraction: the surviving
non-title lines are processed in order, and when at least one line is
rejected the function returns before the write, leaving the store
untouched; otherwise the accepted page dicts are stored under the title
and the pages.json file is written. -/
def customEditionRest (cat : Catalog) (store : Store) (title : List Char)
    (rest : List (List Char)) : Except PyErr Outcome :=
  match processLines cat rest with
  | .error e => .error e
  | .ok (acc, rej) =>
    if rej = [] then
      .ok ⟨title, acc, rej,
        setStore store title (acc.map (fun t => ⟨t.2.2, t.2.1⟩)), true⟩
    else
      .ok ⟨title, acc, rej, store, false⟩

/-- Embedding of custom_edition.main in src/custom_edition.py. The
masters.json catalog and the Specials section of pages.json, which the
Python code reads from disk, are passed as arguments; the pages.json
write is modelled by the returned store and the wrote flag. Extracting
the title from an empty survivor list raises IndexError; a surviving line
that does not split into two tokens raises ValueError inside the loop. -/
def customEditionMain (raw : List Char) (cat : Catalog) (store : Store) :
    Except PyErr Outcome :=
  match specLines raw with
  | [] => .error .indexError
  | title :: rest => customEditionRest cat store title rest

/-- One page entry after enrichment by construct_page_specifications:
the original master name and page number together with the slug and
spread flag copied from the catalog. -/
structure DetailedPage where
  master : List Char
  page : Int
  slug : List Char
  spread : Bool
deriving DecidableEq, Repr

/-- Embedding of the per-page enrichment performed by
construct_page_specifications in src/gen.py, specialized to one page
list: each page dict gains the slug and spread fields of its master, in
list order. The Python function iterates this same enrichment over every
desk and page list of the pages dict; its line 293 reads the module-level
masters variable, which at the only call site is the dict passed as the
masters_dict parameter, so the embedding takes a single catalog argument.
A master name missing from the catalog raises KeyError. -/
def constructPageSpecifications (cat : Catalog) :
    List PageDict → Except PyErr (List DetailedPage)
  | [] => .ok []
  | pd :: rest =>
    match catFind cat pd.master with
    | none => .error .keyError
    | some m =>
      match constructPageSpecifications cat rest with
      | .error e => .error e
      | .ok out => .ok (⟨pd.master, pd.page, m.slug, m.spread⟩ :: out)

/-- Token-level form of the spec AcceptedEntry: the page number parsed
from the first token, the master name the second token, and slug and
isSpread copied from the catalog entry for that master name. -/
def specAcceptTokens (cat : Catalog) (pn mn : List Char) :
    Option DetailedPage :=
  match pyInt pn with
  | none => none
  | some n =>
    match catFind cat mn with
    | none => none
    | some m => some ⟨mn, n, m.slug, m.spread⟩

/-- Modelled from the spec: the AcceptedEntry that a surviving non-title
line should produce on the success path, with the page number parsed from
the first token, the master name the second token, and slug and isSpread
copied from the catalog entry for that master name; no entry when the
line would not be accepted. Stated from the specification wording to
compare against the implementation pipeline. -/
def specAcceptEntry (cat : Catalog) (l : List Char) : Option DetailedPage :=
  match pySplit1 l with
  | [pn, mn] => specAcceptTokens cat pn mn
  | _ => none

/-- Token-level form of the spec RejectedEntry for a line carrying the
given tokens: the integer reason when the page-number token fails to
parse, the masters.json reason when the master name is unknown. -/
def specRejectTokens (cat : Catalog) (l pn mn : List Char) :
    Option (List Char × List Char) :=
  match pyInt pn with
  | none => some (l, notAnIntegerMsg)
  | some _ =>
    match catFind cat mn with
    | none => some (l, mn ++ unknownMasterSuffix)
    | some _ => none

/-- Modelled from the spec: the RejectedEntry that a surviving non-title
line should produce, if any: the original line with the integer reason
when the page-number token fails to parse, the original line with the
masters.json reason when the master name is unknown, and nothing when
the line is accepted. -/
def specRejectEntry (cat : Catalog) (l : List Char) :
    Option (List Char × List Char) :=
  match pySplit1 l with
  | [pn, mn] => specRejectTokens cat l pn mn
  | _ => none

example : customEditionMain "Test Edition\n1 News-Front".data
    [("News-Front".data, ⟨"Front".data, false⟩)] []
    = .ok ⟨"Test Edition".data, [("1 News-Front".data, 1, "News-Front".data)],
        [], [("Test Edition".data, [⟨"News-Front".data, 1⟩])], true⟩ := rfl

example : customEditionMain "Test Edition\n1 News-Front\nabc Other".data
    [("News-Front".data, ⟨"Front".data, false⟩)] []
    = .ok ⟨"Test Edition".data, [("1 News-Front".data, 1, "News-Front".data)],
        [("abc Other".data, notAnIntegerMsg)], [], false⟩ := rfl

example : customEditionMain "T\n5".data [] [] = .error .valueError := rfl

example : customEditionMain "".data [] [] = .error .indexError := rfl

example : specLines " #x\nT".data = [" #x".data, "T".data] := rfl

theorem hasPat_cons_false {a : Char} {l : List Char} (ha : a ≠ ' ')
    (hl : hasPat l = false) : hasPat (a :: l) = false := by
  rw [hasPat_cons, fire_of_not_space ha, hl]
  rfl

theorem hasPat_no_space_append {dl X : List Char}
    (hdl : ∀ c ∈ dl, c ≠ ' ') (hX : hasPat X = false) :
    hasPat (dl ++ X) = false := by
  induction dl with
  | nil => simpa using hX
  | cons a dl' ih =>
    rw [List.cons_append]
    exact hasPat_cons_false (hdl a (by simp))
      (ih (fun c hc => hdl c (by simp [hc])))

theorem rzp_match {c : Char} (rest : List Char) (hc : c.isDigit = true) :
    removeZeroPaddedDates (' ' :: '0' :: c :: rest)
      = ' ' :: c :: removeZeroPaddedDates rest := by
  show (if ' ' = ' ' ∧ '0' = '0' ∧ c.isDigit then
      ' ' :: c :: removeZeroPaddedDates rest
    else ' ' :: removeZeroPaddedDates ('0' :: c :: rest))
    = ' ' :: c :: removeZeroPaddedDates rest
  rw [if_pos ⟨rfl, rfl, hc⟩]

theorem monthName_no_space {m : Nat} (h1 : 1 ≤ m) (h2 : m ≤ 12) :
    ∀ c ∈ monthName m, c ≠ ' ' := by
  interval_cases m <;> decide

theorem daysInMonth_ge_28 {m : Nat} (h1 : 1 ≤ m) (h2 : m ≤ 12) (y : Nat) :
    28 ≤ daysInMonth m y := by
  interval_cases m <;> simp [daysInMonth] <;> split <;> omega

theorem daysInMonth_le_31 {m : Nat} (h1 : 1 ≤ m) (h2 : m ≤ 12) (y : Nat) :
    daysInMonth m y ≤ 31 := by
  interval_cases m <;> simp [daysInMonth] <;> split <;> omega

theorem satSunPrefix_no_space : ∀ c ∈ "Saturday/Sunday\n".data, c ≠ ' ' := by
  decide

theorem rep_no_space (n : Nat) : ∀ c ∈ rep n, c ≠ ' ' :=
  fun c hc => isDigit_ne_space (mem_rep_isDigit n c hc)

theorem hasPat_space_block {L : List Char} (hh : L.head? ≠ some '0')
    (hL : hasPat L = false) : hasPat (' ' :: L) = false := by
  rw [hasPat_cons, fire_space_not_zero hh, hL]
  rfl

theorem head_append_ne_zero {n : Nat} (hn : 1 ≤ n) (R : List Char) :
    (rep n ++ R).head? ≠ some '0' := by
  rcases List.exists_cons_of_ne_nil (rep_ne_nil n) with ⟨d1, dt, hrep⟩
  have := rep_head_ne_zero hn
  rw [hrep] at this ⊢
  simpa using this

theorem weekend_year_branch {y : Nat} :
    formatPageDateForWeekend ⟨y, 12, 31⟩
      = "Saturday/Sunday\nDecember 31-January 1 ".data ++ rep y
        ++ "-".data ++ rep (y + 1) := by
  have hadd : addDay ⟨y, 12, 31⟩ = ⟨y + 1, 1, 1⟩ := by
    unfold addDay
    simp [daysInMonth]
  unfold formatPageDateForWeekend
  rw [hadd]
  have hne : (⟨y, 12, 31⟩ : PyDate).year ≠ (⟨y + 1, 1, 1⟩ : PyDate).year := by
    simp
  rw [if_pos hne]

theorem weekend_month_branch {y m day : Nat} (hy : 1 ≤ y) (hm1 : 1 ≤ m)
    (hm : m ≤ 11) (hday : day = daysInMonth m y) :
    formatPageDateForWeekend ⟨y, m, day⟩
      = "Saturday/Sunday\n".data ++ monthName m ++ " ".data ++ rep day
        ++ "-".data ++ monthName (m + 1) ++ " ".data ++ rep 1
        ++ " ".data ++ rep y := by
  have hd28 : 28 ≤ day := hday ▸ daysInMonth_ge_28 hm1 (by omega) y
  have hadd : addDay ⟨y, m, day⟩ = ⟨y, m + 1, 1⟩ := by
    unfold addDay
    have h1 : ¬ ((⟨y, m, day⟩ : PyDate).day
        < daysInMonth (⟨y, m, day⟩ : PyDate).month (⟨y, m, day⟩ : PyDate).year) := by
      simp only []
      omega
    rw [if_neg h1, if_pos (by simp only []; omega)]
  unfold formatPageDateForWeekend
  rw [hadd]
  rw [if_neg (by simp : ¬ (⟨y, m, day⟩ : PyDate).year ≠ (⟨y, m + 1, 1⟩ : PyDate).year)]
  rw [if_pos (by simp : (⟨y, m, day⟩ : PyDate).month ≠ (⟨y, m + 1, 1⟩ : PyDate).month)]
  simp only []
  rw [show pad2 (⟨y, m, day⟩ : PyDate).day = rep day from by
    unfold pad2; simp only []; rw [if_neg (by omega)]]
  rw [show pad2 (⟨y, m + 1, 1⟩ : PyDate).day = ['0', '1'] from by
    unfold pad2; simp only []
    rw [if_pos (by omega), rep_of_lt_ten (by omega)]
    rfl]
  have hre : "Saturday/Sunday\n".data ++ monthName (⟨y, m, day⟩ : PyDate).month
      ++ " ".data ++ rep day ++ "-".data
      ++ monthName (⟨y, m + 1, 1⟩ : PyDate).month ++ " ".data ++ ['0', '1']
      ++ " ".data ++ rep (⟨y, m + 1, 1⟩ : PyDate).year
      = ("Saturday/Sunday\n".data ++ (monthName m ++ (' ' :: (rep day
          ++ ('-' :: (monthName (m + 1)))))))
        ++ (' ' :: '0' :: '1' :: ' ' :: rep y) := by
    simp [List.append_assoc]
  rw [hre]
  rw [rzp_append _ _ ?hpat]
  case hpat =>
    show hasPat (("Saturday/Sunday\n".data ++ (monthName m ++ (' ' :: (rep day
        ++ ('-' :: (monthName (m + 1))))))) ++ [' ', '0']) = false
    simp only [List.append_assoc, List.cons_append]
    apply hasPat_no_space_append satSunPrefix_no_space
    apply hasPat_no_space_append (monthName_no_space hm1 (by omega))
    apply hasPat_space_block (head_append_ne_zero (by omega) _)
    apply hasPat_no_space_append (rep_no_space day)
    apply hasPat_cons_false (by decide)
    exact hasPat_no_space_append (monthName_no_space (by omega) (by omega))
      (by decide)
  rw [rzp_match _ (by decide), rzp_space_rep hy]
  rw [rep_of_lt_ten (by omega : (1 : Nat) < 10)]
  simp [List.append_assoc, show digitChar 1 = '1' from rfl]

theorem weekend_same_month_low {y m day : Nat} (hy : 1 ≤ y) (hm1 : 1 ≤ m)
    (hm : m ≤ 12) (hd1 : 1 ≤ day) (hd8 : day ≤ 8)
    (hlt : day < daysInMonth m y) :
    formatPageDateForWeekend ⟨y, m, day⟩
      = "Saturday/Sunday\n".data ++ monthName m ++ " ".data ++ rep day
        ++ "-0".data ++ rep (day + 1) ++ " ".data ++ rep y := by
  have hadd : addDay ⟨y, m, day⟩ = ⟨y, m, day + 1⟩ := by
    unfold addDay
    rw [if_pos (by simp only []; omega)]
  unfold formatPageDateForWeekend
  rw [hadd]
  rw [if_neg (by simp :
    ¬ (⟨y, m, day⟩ : PyDate).year ≠ (⟨y, m, day + 1⟩ : PyDate).year)]
  rw [if_neg (by simp :
    ¬ (⟨y, m, day⟩ : PyDate).month ≠ (⟨y, m, day + 1⟩ : PyDate).month)]
  rw [show pad2 (⟨y, m, day⟩ : PyDate).day = ['0', digitChar day] from by
    unfold pad2; simp only []
    rw [if_pos (by omega), rep_of_lt_ten (by omega)]]
  rw [show pad2 (⟨y, m, day + 1⟩ : PyDate).day = ['0', digitChar (day + 1)] from by
    unfold pad2; simp only []
    rw [if_pos (by omega), rep_of_lt_ten (by omega)]]
  have hre : "Saturday/Sunday\n".data ++ monthName (⟨y, m, day⟩ : PyDate).month
      ++ " ".data ++ ['0', digitChar day] ++ "-".data
      ++ ['0', digitChar (day + 1)] ++ " ".data
      ++ rep (⟨y, m, day + 1⟩ : PyDate).year
      = ("Saturday/Sunday\n".data ++ monthName m)
        ++ (' ' :: '0' :: digitChar day :: '-' :: '0' :: digitChar (day + 1)
          :: ' ' :: rep y) := by
    simp [List.append_assoc]
  rw [hre]
  rw [rzp_append _ _ ?hpat]
  case hpat =>
    show hasPat (("Saturday/Sunday\n".data ++ monthName m) ++ [' ', '0']) = false
    simp only [List.append_assoc]
    exact hasPat_no_space_append satSunPrefix_no_space
      (hasPat_no_space_append (monthName_no_space hm1 hm) (by decide))
  rw [rzp_match _ (digitChar_isDigit (by omega))]
  rw [rzp_of_hasPat_false _ ?hrest]
  case hrest =>
    apply hasPat_cons_false (by decide)
    apply hasPat_cons_false (by decide)
    apply hasPat_cons_false (isDigit_ne_space (digitChar_isDigit (by omega)))
    exact hasPat_space_digits (mem_rep_isDigit y) (rep_head_ne_zero hy)
  rw [rep_of_lt_ten (by omega : day < 10),
    rep_of_lt_ten (by omega : day + 1 < 10)]
  simp [List.append_assoc]

theorem weekend_same_month_high {y m day : Nat} (hy : 1 ≤ y) (hm1 : 1 ≤ m)
    (hm : m ≤ 12) (hd9 : 9 ≤ day) (hlt : day < daysInMonth m y) :
    formatPageDateForWeekend ⟨y, m, day⟩
      = "Saturday/Sunday\n".data ++ monthName m ++ " ".data ++ rep day
        ++ "-".data ++ rep (day + 1) ++ " ".data ++ rep y := by
  have hd30 : day ≤ 30 := by
    have := daysInMonth_le_31 hm1 hm y
    omega
  have hadd : addDay ⟨y, m, day⟩ = ⟨y, m, day + 1⟩ := by
    unfold addDay
    rw [if_pos (by simp only []; omega)]
  unfold formatPageDateForWeekend
  rw [hadd]
  rw [if_neg (by simp :
    ¬ (⟨y, m, day⟩ : PyDate).year ≠ (⟨y, m, day + 1⟩ : PyDate).year)]
  rw [if_neg (by simp :
    ¬ (⟨y, m, day⟩ : PyDate).month ≠ (⟨y, m, day + 1⟩ : PyDate).month)]
  by_cases hd9e : day = 9
  · subst hd9e
    rw [show pad2 (⟨y, m, 9⟩ : PyDate).day = ['0', '9'] from by
      unfold pad2; simp only []
      rw [if_pos (by omega), rep_of_lt_ten (by omega)]
      rfl]
    rw [show pad2 (⟨y, m, 9 + 1⟩ : PyDate).day = ['1', '0'] from by
      unfold pad2; simp only []
      rw [if_neg (by omega)]
      rfl]
    have hre : "Saturday/Sunday\n".data ++ monthName (⟨y, m, 9⟩ : PyDate).month
        ++ " ".data ++ ['0', '9'] ++ "-".data ++ ['1', '0'] ++ " ".data
        ++ rep (⟨y, m, 9 + 1⟩ : PyDate).year
        = ("Saturday/Sunday\n".data ++ monthName m)
          ++ (' ' :: '0' :: '9' :: '-' :: '1' :: '0' :: ' ' :: rep y) := by
      simp [List.append_assoc]
    rw [hre]
    rw [rzp_append _ _ ?hpat9]
    case hpat9 =>
      show hasPat (("Saturday/Sunday\n".data ++ monthName m) ++ [' ', '0'])
        = false
      simp only [List.append_assoc]
      exact hasPat_no_space_append satSunPrefix_no_space
        (hasPat_no_space_append (monthName_no_space hm1 hm) (by decide))
    rw [rzp_match _ (by decide)]
    rw [rzp_of_hasPat_false _ ?hrest9]
    case hrest9 =>
      apply hasPat_cons_false (by decide)
      apply hasPat_cons_false (by decide)
      apply hasPat_cons_false (by decide)
      exact hasPat_space_digits (mem_rep_isDigit y) (rep_head_ne_zero hy)
    rw [show rep 9 = ['9'] from rfl, show rep (9 + 1) = ['1', '0'] from rfl]
    simp [List.append_assoc]
  · have hd10 : 10 ≤ day := by omega
    rw [show pad2 (⟨y, m, day⟩ : PyDate).day = rep day from by
      unfold pad2; simp only []
      rw [if_neg (by omega)]]
    rw [show pad2 (⟨y, m, day + 1⟩ : PyDate).day = rep (day + 1) from by
      unfold pad2; simp only []
      rw [if_neg (by omega)]]
    have hre : "Saturday/Sunday\n".data ++ monthName (⟨y, m, day⟩ : PyDate).month
        ++ " ".data ++ rep day ++ "-".data ++ rep (day + 1) ++ " ".data
        ++ rep (⟨y, m, day + 1⟩ : PyDate).year
        = "Saturday/Sunday\n".data ++ (monthName m ++ (' ' :: (rep day
          ++ ('-' :: (rep (day + 1) ++ (' ' :: rep y)))))) := by
      simp [List.append_assoc]
    rw [hre]
    rw [rzp_of_hasPat_false _ ?hall]
    case hall =>
      apply hasPat_no_space_append satSunPrefix_no_space
      apply hasPat_no_space_append (monthName_no_space hm1 hm)
      apply hasPat_space_block (head_append_ne_zero (by omega) _)
      apply hasPat_no_space_append (rep_no_space day)
      apply hasPat_cons_false (by decide)
      apply hasPat_no_space_append (rep_no_space (day + 1))
      exact hasPat_space_digits (mem_rep_isDigit y) (rep_head_ne_zero hy)

theorem addDay_mid {y m day : Nat} (h : day < daysInMonth m y) :
    addDay ⟨y, m, day⟩ = ⟨y, m, day + 1⟩ := by
  unfold addDay
  rw [if_pos (show (⟨y, m, day⟩ : PyDate).day
    < daysInMonth (⟨y, m, day⟩ : PyDate).month (⟨y, m, day⟩ : PyDate).year
    from h)]

theorem addDay_month_end {y m day : Nat} (hlt : ¬ day < daysInMonth m y)
    (hm : m < 12) : addDay ⟨y, m, day⟩ = ⟨y, m + 1, 1⟩ := by
  unfold addDay
  rw [if_neg (show ¬ ((⟨y, m, day⟩ : PyDate).day
    < daysInMonth (⟨y, m, day⟩ : PyDate).month (⟨y, m, day⟩ : PyDate).year)
    from hlt)]
  rw [if_pos (show (⟨y, m, day⟩ : PyDate).month < 12 from hm)]

theorem addDay_year_end {y day : Nat} (hlt : ¬ day < daysInMonth 12 y) :
    addDay ⟨y, 12, day⟩ = ⟨y + 1, 1, 1⟩ := by
  unfold addDay
  rw [if_neg (show ¬ ((⟨y, 12, day⟩ : PyDate).day
    < daysInMonth (⟨y, 12, day⟩ : PyDate).month (⟨y, 12, day⟩ : PyDate).year)
    from hlt)]
  rw [if_neg (show ¬ ((⟨y, 12, day⟩ : PyDate).month < 12) from by simp)]

theorem pad2_eq {n : Nat} (h : n ≤ 99) :
    pad2 n = [digitChar (n / 10), digitChar (n % 10)] := by
  by_cases h10 : n < 10
  · unfold pad2
    rw [if_pos h10, rep_of_lt_ten h10,
      show n / 10 = 0 from by omega, show n % 10 = n from by omega]
    rfl
  · unfold pad2
    rw [if_neg h10]
    exact rep_two_digits (by omega) h

/-- Modelled from the amended claim C1: the weekend form the code
actually produces for a valid Saturday. Day numbers are unpadded in the
year-boundary branch, the month-boundary branch, and for the Saturday day
of the same-month branch; the Sunday day of the same-month branch keeps a
two-digit zero-padded rendering when it is between 2 and 9, because the
zero-stripping substitution requires a space before the zero and that day
follows a hyphen. -/
def weekendFormAmended (d : PyDate) : List Char :=
  if d.month = 12 ∧ d.day = 31 then
    "Saturday/Sunday\nDecember 31-January 1 ".data ++ rep d.year ++ "-".data
      ++ rep (d.year + 1)
  else if d.day = daysInMonth d.month d.year then
    "Saturday/Sunday\n".data ++ monthName d.month ++ " ".data ++ rep d.day
      ++ "-".data ++ monthName (d.month + 1) ++ " ".data ++ rep 1
      ++ " ".data ++ rep d.year
  else if d.day ≤ 8 then
    "Saturday/Sunday\n".data ++ monthName d.month ++ " ".data ++ rep d.day
      ++ "-0".data ++ rep (d.day + 1) ++ " ".data ++ rep d.year
  else
    "Saturday/Sunday\n".data ++ monthName d.month ++ " ".data ++ rep d.day
      ++ "-".data ++ rep (d.day + 1) ++ " ".data ++ rep d.year

/-- Claim C1, counterexample: 4 August 2018 is a Saturday whose Sunday
falls in the same month with day-of-month 5, yet the weekend form renders
that Sunday day as the two characters zero five, not as a single digit:
the claim that every day number in every branch is free of leading zeros
is false on the code. -/
theorem c1_counterexample :
    isoweekday ⟨2018, 8, 4⟩ = 6
    ∧ (addDay ⟨2018, 8, 4⟩).month = (⟨2018, 8, 4⟩ : PyDate).month
    ∧ (addDay ⟨2018, 8, 4⟩).day = 5
    ∧ formatPageDate ⟨2018, 8, 4⟩ true
        = "Saturday/Sunday\nAugust 4-05 2018".data
    ∧ formatPageDate ⟨2018, 8, 4⟩ true
        ≠ "Saturday/Sunday\nAugust 4-5 2018".data :=
  ⟨by decide, by decide, by decide, by decide, by decide⟩

/-- Claim C1, amended: for every valid Saturday date the weekend form
renders day numbers without leading zeros in the year-boundary branch, in
the month-boundary branch, and for the Saturday day of the same-month
branch; but the Sunday day number of the same-month branch keeps its
leading zero whenever that day is between 2 and 9, since the
zero-stripping substitution only matches after a space and the Sunday day
follows a hyphen. -/
theorem c1_weekend_leading_zero_amended (d : PyDate) (hv : ValidDate d)
    (hsat : isoweekday d = 6) :
    formatPageDate d true = weekendFormAmended d := by
  obtain ⟨y, m, day⟩ := d
  have hv2 : 1 ≤ y ∧ y ≤ 9999 ∧ 1 ≤ m ∧ m ≤ 12 ∧ 1 ≤ day
      ∧ day ≤ daysInMonth m y := hv
  obtain ⟨hy1, hy2, hm1, hm2, hd1, hd2⟩ := hv2
  rw [formatPageDate, if_pos ⟨rfl, hsat⟩]
  unfold weekendFormAmended
  by_cases hY : m = 12 ∧ day = 31
  · obtain ⟨hm12, hd31⟩ := hY
    subst hm12
    subst hd31
    rw [if_pos ⟨rfl, rfl⟩]
    exact weekend_year_branch
  · rw [if_neg (by simpa using hY)]
    by_cases hM : day = daysInMonth m y
    · rw [if_pos (by simpa using hM)]
      have hm11 : m ≤ 11 := by
        rcases Nat.lt_or_ge m 12 with h | h
        · omega
        · exfalso
          apply hY
          have hm12 : m = 12 := by omega
          subst hm12
          exact ⟨rfl, by simpa [daysInMonth] using hM⟩
      exact weekend_month_branch hy1 hm1 hm11 hM
    · rw [if_neg (by simpa using hM)]
      have hlt : day < daysInMonth m y := by omega
      by_cases hd8 : day ≤ 8
      · rw [if_pos (by simpa using hd8)]
        exact weekend_same_month_low hy1 hm1 hm2 hd1 hd8 hlt
      · rw [if_neg (by simpa using hd8)]
        exact weekend_same_month_high hy1 hm1 hm2 (by omega) hlt

/-- Claim C1, witness: the amended characterization evaluated at the
Saturday 4 August 2018. -/
theorem c1_witness :
    ValidDate ⟨2018, 8, 4⟩ ∧ isoweekday ⟨2018, 8, 4⟩ = 6
    ∧ formatPageDate ⟨2018, 8, 4⟩ true = weekendFormAmended ⟨2018, 8, 4⟩ :=
  ⟨by decide, by decide,
    c1_weekend_leading_zero_amended ⟨2018, 8, 4⟩ (by decide) (by decide)⟩

/-- Claim C5: for every valid Saturday, the weekend-join algorithm
selects its branch by comparing the components of sat and sun, where sun
is the following day: when the years differ it renders the literal
December 31 to January 1 form with both years, and when only the months
differ it renders the month-boundary template with both month names and
unpadded day numbers. -/
theorem c5_weekend_branch_selection (d : PyDate) (hv : ValidDate d)
    (hsat : isoweekday d = 6) :
    (d.year ≠ (addDay d).year →
      formatPageDate d true
        = "Saturday/Sunday\nDecember 31-January 1 ".data ++ rep d.year
          ++ "-".data ++ rep (addDay d).year)
    ∧ (d.year = (addDay d).year → d.month ≠ (addDay d).month →
      formatPageDate d true
        = "Saturday/Sunday\n".data ++ monthName d.month ++ " ".data
          ++ rep d.day ++ "-".data ++ monthName (addDay d).month ++ " ".data
          ++ rep (addDay d).day ++ " ".data ++ rep (addDay d).year) := by
  obtain ⟨y, m, day⟩ := d
  have hv2 : 1 ≤ y ∧ y ≤ 9999 ∧ 1 ≤ m ∧ m ≤ 12 ∧ 1 ≤ day
      ∧ day ≤ daysInMonth m y := hv
  obtain ⟨hy1, hy2, hm1, hm2, hd1, hd2⟩ := hv2
  rw [formatPageDate, if_pos ⟨rfl, hsat⟩]
  by_cases hlt : day < daysInMonth m y
  · rw [addDay_mid hlt]
    refine ⟨fun hne => absurd rfl hne, fun _ hne => absurd rfl hne⟩
  · by_cases hm12 : m < 12
    · rw [addDay_month_end hlt hm12]
      refine ⟨fun hne => absurd rfl hne, fun _ _ => ?_⟩
      have hM : day = daysInMonth m y := by omega
      exact weekend_month_branch hy1 hm1 (by omega) hM
    · have hm12e : m = 12 := by omega
      subst hm12e
      rw [addDay_year_end hlt]
      have hd31 : day = 31 := by
        have : daysInMonth 12 y = 31 := rfl
        omega
      subst hd31
      refine ⟨fun _ => weekend_year_branch, fun heq _ => ?_⟩
      exact absurd heq (by simp)

/-- Claim C5, witness: the year-boundary branch evaluated at the Saturday
31 December 2016, matching the repository test expectation. -/
theorem c5_witness :
    ValidDate ⟨2016, 12, 31⟩ ∧ isoweekday ⟨2016, 12, 31⟩ = 6
    ∧ formatPageDate ⟨2016, 12, 31⟩ true
        = "Saturday/Sunday\nDecember 31-January 1 ".data ++ rep 2016
          ++ "-".data ++ rep 2017 :=
  ⟨by decide, by decide,
    (c5_weekend_branch_selection ⟨2016, 12, 31⟩ (by decide) (by decide)).1
      (by decide)⟩

/-- Claim C9: for every well-formed date, the file token is exactly six
decimal digits, namely the zero-padded two-digit day, then the zero-padded
two-digit month, then the two-digit year within century, with no
separators. -/
theorem c9_file_token (d : PyDate) (hv : ValidDate d) :
    (formatFileDate d).length = 6
    ∧ (∀ c ∈ formatFileDate d, c.isDigit = true)
    ∧ formatFileDate d
      = [digitChar (d.day / 10), digitChar (d.day % 10),
         digitChar (d.month / 10), digitChar (d.month % 10),
         digitChar (d.year % 100 / 10), digitChar (d.year % 100 % 10)] := by
  obtain ⟨y, m, day⟩ := d
  have hv2 : 1 ≤ y ∧ y ≤ 9999 ∧ 1 ≤ m ∧ m ≤ 12 ∧ 1 ≤ day
      ∧ day ≤ daysInMonth m y := hv
  obtain ⟨hy1, hy2, hm1, hm2, hd1, hd2⟩ := hv2
  have hd99 : day ≤ 99 := by
    have := daysInMonth_le_31 hm1 hm2 y
    omega
  have heq : formatFileDate ⟨y, m, day⟩
      = [digitChar (day / 10), digitChar (day % 10),
         digitChar (m / 10), digitChar (m % 10),
         digitChar (y % 100 / 10), digitChar (y % 100 % 10)] := by
    unfold formatFileDate
    rw [pad2_eq (show (⟨y, m, day⟩ : PyDate).day ≤ 99 from hd99),
      pad2_eq (show (⟨y, m, day⟩ : PyDate).month ≤ 99 from
        show m ≤ 99 by omega),
      pad2_eq (show (⟨y, m, day⟩ : PyDate).year % 100 ≤ 99 from
        show y % 100 ≤ 99 by omega)]
    rfl
  refine ⟨by rw [heq]; rfl, ?_, heq⟩
  intro c hc
  rw [heq] at hc
  simp only [List.mem_cons, List.not_mem_nil, or_false] at hc
  rcases hc with h | h | h | h | h | h <;>
    (subst h; exact digitChar_isDigit (by omega))

/-- Claim C9, witness: the file token of 27 March 2018 is the six digits
two seven zero three one eight. -/
theorem c9_witness :
    ValidDate ⟨2018, 3, 27⟩ ∧ (formatFileDate ⟨2018, 3, 27⟩).length = 6
    ∧ formatFileDate ⟨2018, 3, 27⟩ = "270318".data :=
  ⟨by decide, (c9_file_token ⟨2018, 3, 27⟩ (by decide)).1, by decide⟩

theorem unknownMsg_ne_intMsg (mn : List Char) :
    mn ++ unknownMasterSuffix ≠ notAnIntegerMsg := by
  intro h
  have hlast := congrArg List.getLast? h
  rw [List.getLast?_append_of_ne_nil _ (by decide)] at hlast
  revert hlast
  decide

theorem classifyTokens_none {cat : Catalog} {pn mn : List Char}
    (hpi : pyInt pn = none) :
    classifyTokens cat pn mn = .reject notAnIntegerMsg := by
  unfold classifyTokens
  rw [hpi]

theorem classifyTokens_unknown {cat : Catalog} {pn mn : List Char} {n : Int}
    (hpi : pyInt pn = some n) (hcf : catFind cat mn = none) :
    classifyTokens cat pn mn = .reject (mn ++ unknownMasterSuffix) := by
  unfold classifyTokens
  rw [hpi, hcf]

theorem classifyTokens_accept {cat : Catalog} {pn mn : List Char} {n : Int}
    {m : Master} (hpi : pyInt pn = some n) (hcf : catFind cat mn = some m) :
    classifyTokens cat pn mn = .accept n mn := by
  unfold classifyTokens
  rw [hpi, hcf]

theorem classify_isOk_iff (cat : Catalog) (l : List Char) :
    (∃ r, classify cat l = .ok r) ↔ (pySplit1 l).length = 2 := by
  unfold classify
  rcases hs : pySplit1 l with _ | ⟨pn, _ | ⟨mn, _ | ⟨x, t⟩⟩⟩
  · simp
  · simp
  · exact ⟨fun _ => rfl, fun _ => ⟨classifyTokens cat pn mn, rfl⟩⟩
  · simp

theorem processLines_isOk_iff (cat : Catalog) (ls : List (List Char)) :
    (∃ p, processLines cat ls = .ok p)
      ↔ ∀ l ∈ ls, (pySplit1 l).length = 2 := by
  induction ls with
  | nil => simp [processLines]
  | cons l ls ih =>
    constructor
    · rintro ⟨p, hp⟩
      unfold processLines at hp
      intro x hx
      rcases List.mem_cons.mp hx with hx | hx
      · subst hx
        cases hcl : classify cat x with
        | error e => rw [hcl] at hp; cases hp
        | ok r => exact (classify_isOk_iff cat x).mp ⟨r, hcl⟩
      · cases hcl : classify cat l with
        | error e => rw [hcl] at hp; cases hp
        | ok r =>
          rw [hcl] at hp
          cases hpl : processLines cat ls with
          | error e => rw [hpl] at hp; cases hp
          | ok q => exact ih.mp ⟨q, hpl⟩ x hx
    · intro hall
      obtain ⟨r, hr⟩ := (classify_isOk_iff cat l).mpr (hall l (by simp))
      obtain ⟨⟨acc, rej⟩, hq⟩ := ih.mpr (fun x hx => hall x (by simp [hx]))
      unfold processLines
      rw [hr, hq]
      cases r with
      | accept n mn => exact ⟨_, rfl⟩
      | reject reason => exact ⟨_, rfl⟩

theorem classify_accept_inv {cat : Catalog} {l : List Char} {n : Int}
    {mn : List Char} (h : classify cat l = .ok (.accept n mn)) :
    ∃ pn m, pySplit1 l = [pn, mn] ∧ pyInt pn = some n
      ∧ catFind cat mn = some m := by
  unfold classify at h
  rcases hs : pySplit1 l with _ | ⟨pn, _ | ⟨mn', _ | ⟨x, t⟩⟩⟩ <;> rw [hs] at h
  · exact Except.noConfusion h
  · exact Except.noConfusion h
  · have h2 : classifyTokens cat pn mn' = .accept n mn := Except.ok.inj h
    cases hpi : pyInt pn with
    | none =>
      rw [classifyTokens_none hpi] at h2
      exact LineRes.noConfusion h2
    | some k =>
      cases hcf : catFind cat mn' with
      | none =>
        rw [classifyTokens_unknown hpi hcf] at h2
        exact LineRes.noConfusion h2
      | some m =>
        rw [classifyTokens_accept hpi hcf] at h2
        simp only [LineRes.accept.injEq] at h2
        obtain ⟨hk, hmn⟩ := h2
        subst hk
        subst hmn
        exact ⟨pn, m, rfl, hpi, hcf⟩
  · exact Except.noConfusion h

theorem classify_reject_inv {cat : Catalog} {l r : List Char}
    (h : classify cat l = .ok (.reject r)) :
    specRejectEntry cat l = some (l, r) := by
  unfold classify at h
  unfold specRejectEntry
  rcases hs : pySplit1 l with _ | ⟨pn, _ | ⟨mn', _ | ⟨x, t⟩⟩⟩ <;> rw [hs] at h
  · exact Except.noConfusion h
  · exact Except.noConfusion h
  · have h2 : classifyTokens cat pn mn' = .reject r := Except.ok.inj h
    show specRejectTokens cat l pn mn' = some (l, r)
    cases hpi : pyInt pn with
    | none =>
      rw [classifyTokens_none hpi] at h2
      simp only [LineRes.reject.injEq] at h2
      unfold specRejectTokens
      rw [hpi, h2]
    | some k =>
      cases hcf : catFind cat mn' with
      | none =>
        rw [classifyTokens_unknown hpi hcf] at h2
        simp only [LineRes.reject.injEq] at h2
        unfold specRejectTokens
        rw [hpi, hcf, h2]
      | some m =>
        rw [classifyTokens_accept hpi hcf] at h2
        exact LineRes.noConfusion h2
  · exact Except.noConfusion h

theorem classify_accept_entries {cat : Catalog} {l : List Char} {n : Int}
    {mn : List Char} (h : classify cat l = .ok (.accept n mn)) :
    ∃ m, catFind cat mn = some m
      ∧ specAcceptEntry cat l = some ⟨mn, n, m.slug, m.spread⟩
      ∧ specRejectEntry cat l = none := by
  obtain ⟨pn, m, hs, hpi, hcf⟩ := classify_accept_inv h
  refine ⟨m, hcf, ?_, ?_⟩
  · unfold specAcceptEntry
    rw [hs]
    show specAcceptTokens cat pn mn = some ⟨mn, n, m.slug, m.spread⟩
    unfold specAcceptTokens
    rw [hpi, hcf]
  · unfold specRejectEntry
    rw [hs]
    show specRejectTokens cat l pn mn = none
    unfold specRejectTokens
    rw [hpi, hcf]

theorem processLines_rejected (cat : Catalog) :
    ∀ (ls : List (List Char)) acc rej,
      processLines cat ls = .ok (acc, rej) →
        rej = ls.filterMap (specRejectEntry cat) := by
  intro ls
  induction ls with
  | nil =>
    intro acc rej h
    unfold processLines at h
    simp only [Except.ok.injEq, Prod.mk.injEq] at h
    rw [← h.2]
    rfl
  | cons l ls ih =>
    intro acc rej h
    unfold processLines at h
    cases hcl : classify cat l with
    | error e => rw [hcl] at h; cases h
    | ok r =>
      rw [hcl] at h
      cases hpl : processLines cat ls with
      | error e => rw [hpl] at h; cases h
      | ok q =>
        obtain ⟨acc', rej'⟩ := q
        rw [hpl] at h
        cases r with
        | accept n mn =>
          simp only [Except.ok.injEq, Prod.mk.injEq] at h
          obtain ⟨m, _, _, hnone⟩ := classify_accept_entries hcl
          rw [List.filterMap_cons, hnone, ← h.2]
          exact ih acc' rej' hpl
        | reject reason =>
          simp only [Except.ok.injEq, Prod.mk.injEq] at h
          rw [List.filterMap_cons, classify_reject_inv hcl, ← h.2]
          rw [ih acc' rej' hpl]

theorem processLines_success (cat : Catalog) :
    ∀ (ls : List (List Char)) acc,
      processLines cat ls = .ok (acc, []) →
        ∃ es, ls.mapM (specAcceptEntry cat) = some es
          ∧ constructPageSpecifications cat
              (acc.map (fun t => ⟨t.2.2, t.2.1⟩)) = .ok es := by
  intro ls
  induction ls with
  | nil =>
    intro acc h
    unfold processLines at h
    simp only [Except.ok.injEq, Prod.mk.injEq] at h
    rw [← h.1]
    exact ⟨[], rfl, rfl⟩
  | cons l ls ih =>
    intro acc h
    unfold processLines at h
    cases hcl : classify cat l with
    | error e => rw [hcl] at h; cases h
    | ok r =>
      rw [hcl] at h
      cases hpl : processLines cat ls with
      | error e => rw [hpl] at h; cases h
      | ok q =>
        obtain ⟨acc', rej'⟩ := q
        rw [hpl] at h
        cases r with
        | accept n mn =>
          simp only [Except.ok.injEq, Prod.mk.injEq] at h
          have hrej' : rej' = [] := h.2
          subst hrej'
          obtain ⟨es, hmap, hcons⟩ := ih acc' hpl
          obtain ⟨m, hcf, hacc, _⟩ := classify_accept_entries hcl
          refine ⟨⟨mn, n, m.slug, m.spread⟩ :: es, ?_, ?_⟩
          · rw [List.mapM_cons, hacc, hmap]
            rfl
          · rw [← h.1]
            simp only [List.map_cons]
            unfold constructPageSpecifications
            rw [show catFind cat (⟨mn, n⟩ : PageDict).master = some m from hcf]
            rw [hcons]
        | reject reason =>
          simp only [Except.ok.injEq, Prod.mk.injEq] at h
          cases h.2

theorem mapM_option_length {α β : Type} (f : α → Option β) :
    ∀ (ls : List α) (es : List β), ls.mapM f = some es →
      es.length = ls.length := by
  intro ls
  induction ls with
  | nil =>
    intro es h
    rw [List.mapM_nil] at h
    cases h
    rfl
  | cons a ls ih =>
    intro es h
    rw [List.mapM_cons] at h
    cases hf : f a with
    | none => rw [hf] at h; cases h
    | some b =>
      rw [hf] at h
      cases hm : ls.mapM f with
      | none => rw [hm] at h; cases h
      | some bs =>
        rw [hm] at h
        cases h
        simp [ih bs hm]

/-- Claim C2, counterexample: on the specification text consisting of a
title line and then the single-token line five, the tuple unpacking of
the one-element split raises ValueError and aborts processing, instead of
classifying that line as accepted or rejected. -/
theorem c2_counterexample :
    customEditionMain "T\n5".data [] [] = .error .valueError
    ∧ (pySplit1 "5".data).length = 1 :=
  ⟨rfl, rfl⟩

/-- Claim C2, amended: processing a surviving non-title line never raises
when the line splits into two tokens on the first whitespace run, and
such a line is always classified as accepted or rejected with processing
continuing; but a line consisting of a single whitespace-delimited token
raises ValueError at the tuple unpacking, aborting the remaining lines.
The run completes normally exactly when a title line exists and every
subsequent surviving line splits into two tokens. -/
theorem c2_no_abort_amended (raw : List Char) (cat : Catalog) (store : Store) :
    (∃ out, customEditionMain raw cat store = .ok out)
      ↔ (specLines raw ≠ []
          ∧ ∀ l ∈ (specLines raw).tail, (pySplit1 l).length = 2) := by
  unfold customEditionMain
  rcases hs : specLines raw with _ | ⟨title, rest⟩
  · simp
  · simp only [List.tail_cons]
    constructor
    · rintro ⟨out, hout⟩
      have hout1 : customEditionRest cat store title rest = Except.ok out :=
        hout
      unfold customEditionRest at hout1
      refine ⟨by simp, ?_⟩
      intro l hl
      cases hpl : processLines cat rest with
      | error e => rw [hpl] at hout1; exact Except.noConfusion hout1
      | ok p => exact (processLines_isOk_iff cat rest).mp ⟨p, hpl⟩ l hl
    · rintro ⟨-, hall⟩
      obtain ⟨⟨acc, rej⟩, hp⟩ := (processLines_isOk_iff cat rest).mpr hall
      show ∃ out, customEditionRest cat store title rest = Except.ok out
      unfold customEditionRest
      rw [hp]
      by_cases hrej : rej = []
      · exact ⟨_, if_pos hrej⟩
      · exact ⟨_, if_neg hrej⟩

/-- Claim C2, witness: a title line followed by one well-formed page line
completes without an exception. -/
theorem c2_witness :
    ∃ out, customEditionMain "T\n1 M".data [("M".data, ⟨"m".data, false⟩)] []
      = .ok out :=
  (c2_no_abort_amended "T\n1 M".data [("M".data, ⟨"m".data, false⟩)] []).mpr
    ⟨by decide, by decide⟩

/-- Claim C3, counterexample: a line whose first non-whitespace character
is the hash character but whose very first character is a space survives
input processing, and even becomes the title of a run, instead of being
discarded as a comment. -/
theorem c3_counterexample :
    (pyLstrip " #x".data).head? = some '#'
    ∧ specLines " #x\nT".data = [" #x".data, "T".data]
    ∧ customEditionMain " #x".data [] []
        = .ok ⟨" #x".data, [], [], [(" #x".data, [])], true⟩ :=
  ⟨rfl, rfl, rfl⟩

/-- Claim C3, amended: a line is discarded by input processing exactly
when it is blank after stripping or its very first character, whitespace
included, is the hash character; a nonblank line with leading whitespace
before a hash survives, kept in trailing-stripped form. Stated for a
single line, which splitting leaves intact. -/
theorem c3_comment_rule_amended (l : List Char) (hnl : '\n' ∉ l) :
    specLines l = if startsWithHash l = true ∨ pyStrip l = [] then []
                  else [pyRstrip l] := by
  have hsplit : splitNL l = [l] := by
    induction l with
    | nil => rfl
    | cons c rest ih =>
      have hrest : splitNL rest = [rest] := ih (fun hc => hnl (by simp [hc]))
      unfold splitNL
      rw [hrest]
      show (if c = '\n' then [] :: rest :: [] else (c :: rest) :: []) = [c :: rest]
      rw [if_neg (show ¬ c = '\n' from fun hc => hnl (by simp [hc]))]
  unfold specLines
  rw [hsplit]
  by_cases h1 : startsWithHash l = true ∨ pyStrip l = []
  · rw [if_pos h1]
    have hp : (!startsWithHash l && !(pyStrip l).isEmpty) = false := by
      rcases h1 with h | h
      · rw [h]; rfl
      · rw [h]
        simp
    simp [List.filter, hp]
  · rw [if_neg h1]
    push_neg at h1
    obtain ⟨hh, hb⟩ := h1
    have hp : (!startsWithHash l && !(pyStrip l).isEmpty) = true := by
      have hh2 : startsWithHash l = false := by
        cases hsw : startsWithHash l
        · rfl
        · exact absurd hsw hh
      have hb2 : (pyStrip l).isEmpty = false := by
        cases hst : pyStrip l
        · exact absurd hst hb
        · rfl
      rw [hh2, hb2]
      rfl
    simp [List.filter, hp]

/-- Claim C3, witness: the amended comment rule evaluated at the line
made of a space, a hash and a letter. -/
theorem c3_witness :
    ('\n' ∉ " #x".data)
    ∧ specLines " #x".data
        = (if startsWithHash " #x".data = true ∨ pyStrip " #x".data = []
           then [] else [pyRstrip " #x".data]) :=
  ⟨by decide, c3_comment_rule_amended " #x".data (by decide)⟩

/-- Claim C6: for a surviving line that splits into a page-number token
and a master-name token, the line is rejected with the integer reason
exactly when the page-number token does not parse as an integer, is
rejected with the masters.json reason exactly when the token parses but
the master name is not a key of the catalog, and is accepted with the
parsed number otherwise; moreover the decimal rendering of every integer,
positive, negative or zero, parses back to itself. -/
theorem c6_line_validation (cat : Catalog) (l pn mn : List Char)
    (hsplit : pySplit1 l = [pn, mn]) :
    (classify cat l = .ok (.reject notAnIntegerMsg) ↔ pyInt pn = none)
    ∧ (classify cat l = .ok (.reject (mn ++ unknownMasterSuffix))
        ↔ pyInt pn ≠ none ∧ catFind cat mn = none)
    ∧ (∀ (n : Int) (m : Master), pyInt pn = some n → catFind cat mn = some m →
        classify cat l = .ok (.accept n mn))
    ∧ (∀ k : Int, pyInt (strInt k) = some k) := by
  have hcl : classify cat l = .ok (classifyTokens cat pn mn) := by
    unfold classify
    rw [hsplit]
  refine ⟨?_, ?_, ?_, fun k => pyInt_strInt k⟩
  · rw [hcl]
    constructor
    · intro h
      have h2 := Except.ok.inj h
      by_contra hne
      rcases Option.ne_none_iff_exists'.mp hne with ⟨n, hpi⟩
      cases hcf : catFind cat mn with
      | none =>
        rw [classifyTokens_unknown hpi hcf] at h2
        simp only [LineRes.reject.injEq] at h2
        exact unknownMsg_ne_intMsg mn h2
      | some m =>
        rw [classifyTokens_accept hpi hcf] at h2
        exact LineRes.noConfusion h2
    · intro hpi
      rw [classifyTokens_none hpi]
  · rw [hcl]
    constructor
    · intro h
      have h2 := Except.ok.inj h
      cases hpi : pyInt pn with
      | none =>
        rw [classifyTokens_none hpi] at h2
        simp only [LineRes.reject.injEq] at h2
        exact absurd h2.symm (unknownMsg_ne_intMsg mn)
      | some n =>
        cases hcf : catFind cat mn with
        | none => exact ⟨by simp, rfl⟩
        | some m =>
          rw [classifyTokens_accept hpi hcf] at h2
          exact LineRes.noConfusion h2
    · rintro ⟨hne, hcf⟩
      rcases Option.ne_none_iff_exists'.mp hne with ⟨n, hpi⟩
      rw [classifyTokens_unknown hpi hcf]
  · intro n m hpi hcf
    rw [hcl, classifyTokens_accept hpi hcf]

/-- Claim C6, witness: the line one News-Front splits into two tokens and
is accepted with page number one. -/
theorem c6_witness :
    pySplit1 "1 News-Front".data = ["1".data, "News-Front".data]
    ∧ classify [("News-Front".data, ⟨"Front".data, false⟩)]
        "1 News-Front".data
      = .ok (.accept 1 "News-Front".data) :=
  ⟨rfl, (c6_line_validation [("News-Front".data, ⟨"Front".data, false⟩)]
      "1 News-Front".data "1".data "News-Front".data rfl).2.2.1
    1 ⟨"Front".data, false⟩ rfl rfl⟩

/-- Claim C4: whenever a completed run has at least one rejected line, the
persistent store is left unchanged, the pages.json write is not
performed, and the rejected report carries exactly one entry per failing
surviving line, in order, each with the original line text and its
reason. -/
theorem c4_all_or_nothing (raw : List Char) (cat : Catalog) (store : Store)
    (out : Outcome) (hrun : customEditionMain raw cat store = .ok out)
    (hrej : out.rejected ≠ []) :
    out.store = store ∧ out.wrote = false
    ∧ out.rejected = ((specLines raw).tail).filterMap (specRejectEntry cat) := by
  unfold customEditionMain at hrun
  rcases hs : specLines raw with _ | ⟨title, rest⟩ <;> rw [hs] at hrun
  · exact Except.noConfusion hrun
  · have hrun1 : customEditionRest cat store title rest = Except.ok out := hrun
    unfold customEditionRest at hrun1
    cases hpl : processLines cat rest with
    | error e => rw [hpl] at hrun1; exact Except.noConfusion hrun1
    | ok q =>
      obtain ⟨acc, rej⟩ := q
      rw [hpl] at hrun1
      have hrun2 : (if rej = [] then
          Except.ok (⟨title, acc, rej, setStore store title
            (acc.map (fun t => (⟨t.2.2, t.2.1⟩ : PageDict))), true⟩ : Outcome)
        else Except.ok ⟨title, acc, rej, store, false⟩)
          = Except.ok out := hrun1
      by_cases hr : rej = []
      · rw [if_pos hr] at hrun2
        have heq := Except.ok.inj hrun2
        subst heq
        exact absurd hr hrej
      · rw [if_neg hr] at hrun2
        have heq := Except.ok.inj hrun2
        subst heq
        exact ⟨rfl, rfl, processLines_rejected cat rest acc rej hpl⟩

/-- Claim C4, witness: a block with one accepted and one rejected line
leaves the store untouched and reports the one failing line. -/
theorem c4_witness :
    customEditionMain "Test Edition\n1 News-Front\nabc Other".data
        [("News-Front".data, ⟨"Front".data, false⟩)] [("Old".data, [])]
      = .ok ⟨"Test Edition".data,
          [("1 News-Front".data, 1, "News-Front".data)],
          [("abc Other".data, notAnIntegerMsg)], [("Old".data, [])], false⟩
    ∧ ((⟨"Test Edition".data,
          [("1 News-Front".data, 1, "News-Front".data)],
          [("abc Other".data, notAnIntegerMsg)], [("Old".data, [])],
          false⟩ : Outcome).store = [("Old".data, [])]
      ∧ (⟨"Test Edition".data,
          [("1 News-Front".data, 1, "News-Front".data)],
          [("abc Other".data, notAnIntegerMsg)], [("Old".data, [])],
          false⟩ : Outcome).wrote = false
      ∧ (⟨"Test Edition".data,
          [("1 News-Front".data, 1, "News-Front".data)],
          [("abc Other".data, notAnIntegerMsg)], [("Old".data, [])],
          false⟩ : Outcome).rejected
        = ((specLines "Test Edition\n1 News-Front\nabc Other".data).tail).filterMap
            (specRejectEntry [("News-Front".data, ⟨"Front".data, false⟩)])) :=
  ⟨rfl, c4_all_or_nothing "Test Edition\n1 News-Front\nabc Other".data
    [("News-Front".data, ⟨"Front".data, false⟩)] [("Old".data, [])]
    ⟨"Test Edition".data, [("1 News-Front".data, 1, "News-Front".data)],
      [("abc Other".data, notAnIntegerMsg)], [("Old".data, [])], false⟩
    rfl (by decide)⟩

/-- Claim C7: when a completed run rejects no line, the title is the
first surviving line and the accepted entries, enriched with slug and
spread from the catalog by the page-specification construction, are in
bijection with the surviving non-title lines, one entry per line in input
order, each carrying the parsed page number, the master name, and the
slug and spread copied from the catalog entry for that master name. -/
theorem c7_success_output (raw : List Char) (cat : Catalog) (store : Store)
    (out : Outcome) (hrun : customEditionMain raw cat store = .ok out)
    (hrej : out.rejected = []) :
    (specLines raw).head? = some out.title
    ∧ ∃ entries,
        ((specLines raw).tail).mapM (specAcceptEntry cat) = some entries
        ∧ constructPageSpecifications cat
            (out.accepted.map (fun t => (⟨t.2.2, t.2.1⟩ : PageDict)))
          = .ok entries
        ∧ entries.length = (specLines raw).tail.length := by
  unfold customEditionMain at hrun
  rcases hs : specLines raw with _ | ⟨title, rest⟩ <;> rw [hs] at hrun
  · exact Except.noConfusion hrun
  · have hrun1 : customEditionRest cat store title rest = Except.ok out := hrun
    unfold customEditionRest at hrun1
    cases hpl : processLines cat rest with
    | error e => rw [hpl] at hrun1; exact Except.noConfusion hrun1
    | ok q =>
      obtain ⟨acc, rej⟩ := q
      rw [hpl] at hrun1
      have hrun2 : (if rej = [] then
          Except.ok (⟨title, acc, rej, setStore store title
            (acc.map (fun t => (⟨t.2.2, t.2.1⟩ : PageDict))), true⟩ : Outcome)
        else Except.ok ⟨title, acc, rej, store, false⟩)
          = Except.ok out := hrun1
      by_cases hr : rej = []
      · subst hr
        rw [if_pos rfl] at hrun2
        have heq := Except.ok.inj hrun2
        subst heq
        obtain ⟨es, hmap, hcons⟩ := processLines_success cat rest acc hpl
        exact ⟨rfl, es, hmap, hcons, mapM_option_length _ rest es hmap⟩
      · rw [if_neg hr] at hrun2
        have heq := Except.ok.inj hrun2
        subst heq
        exact absurd hrej hr

/-- Claim C7, witness: the success path on one accepted line yields the
title and the single enriched entry. -/
theorem c7_witness :
    customEditionMain "Test Edition\n1 News-Front".data
        [("News-Front".data, ⟨"Front".data, false⟩)] []
      = .ok ⟨"Test Edition".data,
          [("1 News-Front".data, 1, "News-Front".data)], [],
          [("Test Edition".data, [⟨"News-Front".data, 1⟩])], true⟩
    ∧ ((specLines "Test Edition\n1 News-Front".data).head?
        = some (⟨"Test Edition".data,
            [("1 News-Front".data, 1, "News-Front".data)], [],
            [("Test Edition".data, [⟨"News-Front".data, 1⟩])],
            true⟩ : Outcome).title
      ∧ ∃ entries,
          ((specLines "Test Edition\n1 News-Front".data).tail).mapM
              (specAcceptEntry [("News-Front".data, ⟨"Front".data, false⟩)])
            = some entries
          ∧ constructPageSpecifications
              [("News-Front".data, ⟨"Front".data, false⟩)]
              ((⟨"Test Edition".data,
                  [("1 News-Front".data, 1, "News-Front".data)], [],
                  [("Test Edition".data, [⟨"News-Front".data, 1⟩])],
                  true⟩ : Outcome).accepted.map
                (fun t => (⟨t.2.2, t.2.1⟩ : PageDict)))
            = .ok entries
          ∧ entries.length
            = (specLines "Test Edition\n1 News-Front".data).tail.length) :=
  ⟨rfl, c7_success_output "Test Edition\n1 News-Front".data
    [("News-Front".data, ⟨"Front".data, false⟩)] []
    ⟨"Test Edition".data, [("1 News-Front".data, 1, "News-Front".data)], [],
      [("Test Edition".data, [⟨"News-Front".data, 1⟩])], true⟩ rfl rfl⟩

/-- Claim C8, counterexample: on the all-accepted block with title T and
the single line one M, the function itself performs the pages.json write
and changes the store, so the claim that no write happens on the success
path is false on the code. -/
theorem c8_counterexample :
    customEditionMain "T\n1 M".data [("M".data, ⟨"m".data, false⟩)] []
      = .ok ⟨"T".data, [("1 M".data, 1, "M".data)], [],
          [("T".data, [⟨"M".data, 1⟩])], true⟩
    ∧ ([("T".data, [⟨"M".data, 1⟩])] : Store) ≠ ([] : Store) :=
  ⟨rfl, by decide⟩

/-- Claim C8, amended: on every completed run the pages.json write is
performed exactly when no line was rejected; the rejection path leaves
the store unchanged, while the all-accepted path stores the accepted page
dicts under the title inside the function itself rather than leaving
persistence to the caller. -/
theorem c8_frame_amended (raw : List Char) (cat : Catalog) (store : Store)
    (out : Outcome) (hrun : customEditionMain raw cat store = .ok out) :
    (out.wrote = true ↔ out.rejected = [])
    ∧ (out.rejected ≠ [] → out.store = store)
    ∧ (out.rejected = [] →
        out.store = setStore store out.title
          (out.accepted.map (fun t => (⟨t.2.2, t.2.1⟩ : PageDict)))) := by
  unfold customEditionMain at hrun
  rcases hs : specLines raw with _ | ⟨title, rest⟩ <;> rw [hs] at hrun
  · exact Except.noConfusion hrun
  · have hrun1 : customEditionRest cat store title rest = Except.ok out := hrun
    unfold customEditionRest at hrun1
    cases hpl : processLines cat rest with
    | error e => rw [hpl] at hrun1; exact Except.noConfusion hrun1
    | ok q =>
      obtain ⟨acc, rej⟩ := q
      rw [hpl] at hrun1
      have hrun2 : (if rej = [] then
          Except.ok (⟨title, acc, rej, setStore store title
            (acc.map (fun t => (⟨t.2.2, t.2.1⟩ : PageDict))), true⟩ : Outcome)
        else Except.ok ⟨title, acc, rej, store, false⟩)
          = Except.ok out := hrun1
      by_cases hr : rej = []
      · rw [if_pos hr] at hrun2
        have heq := Except.ok.inj hrun2
        subst heq
        exact ⟨⟨fun _ => hr, fun _ => rfl⟩, fun hc => absurd hr hc,
          fun _ => rfl⟩
      · rw [if_neg hr] at hrun2
        have heq := Except.ok.inj hrun2
        subst heq
        exact ⟨⟨fun h => Bool.noConfusion h, fun h => absurd h hr⟩,
          fun _ => rfl, fun h => absurd h hr⟩

/-- Claim C8, witness: the frame characterization on the all-accepted
block with title T and line one M. -/
theorem c8_witness :
    customEditionMain "T\n1 M".data [("M".data, ⟨"m".data, false⟩)] []
      = .ok ⟨"T".data, [("1 M".data, 1, "M".data)], [],
          [("T".data, [⟨"M".data, 1⟩])], true⟩
    ∧ (((⟨"T".data, [("1 M".data, 1, "M".data)], [],
          [("T".data, [⟨"M".data, 1⟩])], true⟩ : Outcome).wrote = true
        ↔ (⟨"T".data, [("1 M".data, 1, "M".data)], [],
            [("T".data, [⟨"M".data, 1⟩])], true⟩ : Outcome).rejected = [])
      ∧ ((⟨"T".data, [("1 M".data, 1, "M".data)], [],
            [("T".data, [⟨"M".data, 1⟩])], true⟩ : Outcome).rejected ≠ []
          → (⟨"T".data, [("1 M".data, 1, "M".data)], [],
              [("T".data, [⟨"M".data, 1⟩])], true⟩ : Outcome).store = [])
      ∧ ((⟨"T".data, [("1 M".data, 1, "M".data)], [],
            [("T".data, [⟨"M".data, 1⟩])], true⟩ : Outcome).rejected = []
          → (⟨"T".data, [("1 M".data, 1, "M".data)], [],
              [("T".data, [⟨"M".data, 1⟩])], true⟩ : Outcome).store
            = setStore [] (⟨"T".data, [("1 M".data, 1, "M".data)], [],
                [("T".data, [⟨"M".data, 1⟩])], true⟩ : Outcome).title
              ((⟨"T".data, [("1 M".data, 1, "M".data)], [],
                  [("T".data, [⟨"M".data, 1⟩])],
                  true⟩ : Outcome).accepted.map
                (fun t => (⟨t.2.2, t.2.1⟩ : PageDict))))) :=
  ⟨rfl, c8_frame_amended "T\n1 M".data [("M".data, ⟨"m".data, false⟩)] []
    ⟨"T".data, [("1 M".data, 1, "M".data)], [],
      [("T".data, [⟨"M".data, 1⟩])], true⟩ rfl⟩

/-- Claim C10: on raw text in which every line starts with the hash
character or is blank after stripping, so that no line survives input
processing, extracting the title raises an out-of-range IndexError
instead of returning a result; such inputs lie outside the total domain
of the function. -/
theorem c10_no_survivors (raw : List Char) (cat : Catalog) (store : Store)
    (h : ∀ l ∈ splitNL raw, startsWithHash l = true ∨ pyStrip l = []) :
    customEditionMain raw cat store = .error .indexError := by
  have hnil : specLines raw = [] := by
    unfold specLines
    rw [show ((splitNL raw).filter
        (fun l => !startsWithHash l && !(pyStrip l).isEmpty)) = ([] : List (List Char))
      from ?_]
    · rfl
    · rw [List.filter_eq_nil_iff]
      intro a ha
      rcases h a ha with h1 | h1
      · simp [h1]
      · simp [h1]
  unfold customEditionMain
  rw [hnil]

/-- Claim C10, witness: the empty raw text has no surviving line and the
run raises IndexError. -/
theorem c10_witness :
    (∀ l ∈ splitNL "".data, startsWithHash l = true ∨ pyStrip l = [])
    ∧ customEditionMain "".data [] [] = .error .indexError :=
  ⟨by decide, c10_no_survivors "".data [] [] (by decide)⟩

end MsPyInDesign
